import Mathlib

/-
Verification of the chart-rendering engine in src/main.rs (a Rust program
that renders a contribution heatmap, a language donut chart and a metric
radar chart as one vector image).

Modelling conventions of this shallow embedding:
* Rust `f64` values are modelled as real numbers (`ℝ`) with exact
  arithmetic; `f64` literals such as 0.8 are read as the exact rationals
  they denote in the source text.  Factors fed to `darken` are modelled
  as rationals (`ℚ`) so that the integer channel computation stays
  executable.
* Rust `i32` is modelled as `ℤ` and `usize` as `ℕ` (no computation in the
  program comes near the overflow boundaries).
* Rust strings are modelled as lists of characters; all strings the
  program manipulates are ASCII, so byte indices coincide with character
  indices.
* A Rust panic (out-of-bounds string slicing) is modelled as `Option.none`.
* Rust `f64` division by zero yields NaN/inf at runtime instead of
  faulting; the embedding uses `ℝ` (where `x / 0 = 0`), and no theorem
  below depends on the value of a division whose divisor is zero — only
  on the shape of the data emitted around it.
-/

/-! ## Color utility: `darken` (src/main.rs lines 73-79) -/

/-- Value of one hexadecimal digit character, as accepted by Rust's
`u8::from_str_radix(_, 16)`: the ranges are 48-57 for `0`-`9`, 97-102
for `a`-`f` and 65-70 for `A`-`F` in code points. -/
def hexDigitVal (c : Char) : Option ℕ :=
  if 48 ≤ c.toNat ∧ c.toNat ≤ 57 then some (c.toNat - 48)
  else if 97 ≤ c.toNat ∧ c.toNat ≤ 102 then some (c.toNat - 87)
  else if 65 ≤ c.toNat ∧ c.toNat ≤ 70 then some (c.toNat - 55)
  else none

/-- Accumulating hex parse of a digit string into a `u8`, with the
overflow check performed by `u8::from_str_radix`: any intermediate value
above 255 is an error.  The empty digit string is an error. -/
def parseHexDigits (ds : List Char) : Option ℕ :=
  match ds with
  | [] => none
  | _ =>
    ds.foldlM (fun acc c =>
      (hexDigitVal c).bind fun d =>
        if acc * 16 + d ≤ 255 then some (acc * 16 + d) else none) 0

/-- `u8::from_str_radix(s, 16)`: an optional leading sign (`+`, or `-`
which for an unsigned type only succeeds when every digit is zero),
followed by a non-empty run of hex digits whose value fits in a `u8`. -/
def fromStrRadix16 (s : List Char) : Option ℕ :=
  match s with
  | c :: rest =>
    if c = '+' then parseHexDigits rest
    else if c = '-' then (parseHexDigits rest).bind fun v => if v = 0 then some 0 else none
    else parseHexDigits (c :: rest)
  | [] => none

/-- Rust's `(c as f64 * amount) as u8`: the exact rational product
`c * amount` (numerator `c * amount.num`, denominator `amount.den`),
truncated toward zero (`Int.tdiv` is t-division, exactly the `as u8`
rounding) and saturated into `[0, 255]`. -/
def scaleToU8 (c : ℕ) (amount : ℚ) : ℕ :=
  min (Int.toNat (Int.tdiv ((c : ℤ) * amount.num) ((amount.den : ℕ) : ℤ))) 255

/-- Lower-case hex digit character for a value below 16. -/
def hexChar (d : ℕ) : Char :=
  if d < 10 then Char.ofNat (48 + d) else Char.ofNat (87 + d)

/-- Two-digit lower-case hex rendering `{:02x}` of a byte value. -/
def toHex2 (n : ℕ) : List Char :=
  [hexChar (n / 16), hexChar (n % 16)]

/-- One channel of `darken`: the Rust expression
`(u8::from_str_radix(&hex[lo..lo+2], 16).unwrap_or(200) as f64 * amount) as u8`.
Slicing `&hex[lo..lo+2]` panics (modelled as `none`) when the string is
shorter than `lo + 2`; a failed parse falls back to 200. -/
def channelOf (h : List Char) (lo : ℕ) (amount : ℚ) : Option ℕ :=
  if lo + 2 ≤ h.length then
    some (scaleToU8 ((fromStrRadix16 ((h.drop lo).take 2)).getD 200) amount)
  else
    none

/-- `darken` from src/main.rs lines 73-79: strip every leading `#`,
slice three 2-character channels, parse each with fallback 200, scale by
`amount`, cast back to `u8` and re-render as `#rrggbb`. -/
def darken (hex : List Char) (amount : ℚ) : Option (List Char) :=
  let h := hex.dropWhile (fun c => c = '#')
  do
    let r ← channelOf h 0 amount
    let g ← channelOf h 2 amount
    let b ← channelOf h 4 amount
    pure ('#' :: (toHex2 r ++ toHex2 g ++ toHex2 b))

/-- A well-formed color string: a leading `#` followed by exactly six
hex digit characters. -/
def isColorString (s : List Char) : Bool :=
  s.length = 7 && s.head? = some '#' && s.tail.all (fun c => (hexDigitVal c).isSome)

/-! ## Calendar data model (src/main.rs lines 40-45) -/

structure Day where
  contribution_count : ℤ
deriving DecidableEq

structure Week where
  contribution_days : List Day
deriving DecidableEq

/-- `get_seasonal_color` (src/main.rs lines 81-89): zero-count cells get
the fixed neutral color, otherwise one of four palette colors chosen by
the week-index quarter. -/
def get_seasonal_color (week_idx : ℕ) (count : ℤ) : List Char :=
  if count = 0 then "#ebedf0".toList
  else if week_idx ≤ 12 then "#c6e48b".toList
  else if week_idx ≤ 25 then "#f4e04d".toList
  else if week_idx ≤ 38 then "#a3a3a3".toList
  else "#d1a3d1".toList

/-! ## Isometric projector: `project` (src/main.rs lines 64-71) -/

/-- `project(x, y, z)`: fixed 30-degree axonometric transform with
center (400, 300) and scale 20.  `30.0_f64.to_radians()` is
`30 * (π / 180)`. -/
noncomputable def project (x y z : ℝ) : ℝ × ℝ :=
  let angle : ℝ := 30 * (Real.pi / 180)
  let scale : ℝ := 20
  (400 + (x - y) * Real.cos angle * scale,
   300 + (x + y) * Real.sin angle * scale - z)

/-! ## Heatmap renderer: `draw_3d_heatmap` (src/main.rs lines 93-115) -/

/-- One SVG `Polygon` face: its fill attribute (an `Option` because the
fill of the two shaded faces is the result of `darken`, whose panic is
modelled as `none`; it never panics here since seasonal colors are
well-formed) and its four corner points in emission order. -/
structure Face where
  fill : Option (List Char)
  points : List (ℝ × ℝ)

/-- Bar height `(count as f64 * 5.0).max(2.0)` (line 97). -/
noncomputable def barHeight (day : Day) : ℝ :=
  max ((day.contribution_count : ℝ) * 5) 2

/-- The loop body of `draw_3d_heatmap` for the cell at week `x`, day `y`:
project the seven prism corners and emit the left, right and top faces,
in that order (lines 97-111). -/
noncomputable def cellFaces (x y : ℕ) (day : Day) : List Face :=
  let h := barHeight day
  let xf : ℝ := (x : ℝ)
  let yf : ℝ := (y : ℝ)
  let color := get_seasonal_color x day.contribution_count
  let p_top_back := project xf yf h
  let p_top_left := project (xf + 1) yf h
  let p_top_right := project xf (yf + 1) h
  let p_top_front := project (xf + 1) (yf + 1) h
  let p_bot_left := project (xf + 1) yf 0
  let p_bot_right := project xf (yf + 1) 0
  let p_bot_front := project (xf + 1) (yf + 1) 0
  [ { fill := darken color (mkRat 4 5),
      points := [p_top_left, p_top_front, p_bot_front, p_bot_left] },
    { fill := darken color (mkRat 3 5),
      points := [p_top_right, p_top_front, p_bot_front, p_bot_right] },
    { fill := some color,
      points := [p_top_back, p_top_left, p_top_front, p_top_right] } ]

/-- `draw_3d_heatmap`: enumerate weeks (outer) and each week's actually
present days (inner), appending the three faces of every cell to the
group in traversal order. -/
noncomputable def draw_3d_heatmap (weeks : List Week) : List Face :=
  weeks.enum.flatMap fun p =>
    p.2.contribution_days.enum.flatMap fun q => cellFaces p.1 q.1 q.2

/-! ## Donut renderer: `draw_donut_chart` (src/main.rs lines 117-155) -/

/-- One entry of the `HashMap<String, (i32, String)>`, in the order the
map happens to iterate: `(name, (size, color))`.  A list of entries
models one possible iteration order of the map. -/
abbrev LangEntry := List Char × ℤ × List Char

/-- The sort step `sorted_langs.sort_by(|a, b| b.1.0.cmp(&a.1.0))`
(line 121): a stable sort by non-increasing size.  `Vec::sort_by` is a
stable sort, and so is insertion sort, so they agree on every input. -/
def sortLangs (l : List LangEntry) : List LangEntry :=
  l.insertionSort fun a b => b.2.1 ≤ a.2.1

/-- The descending-magnitude comparison is total. -/
instance : IsTotal LangEntry (fun a b => b.2.1 ≤ a.2.1) :=
  ⟨fun a b => le_total b.2.1 a.2.1⟩

/-- The descending-magnitude comparison is transitive. -/
instance : IsTrans LangEntry (fun a b => b.2.1 ≤ a.2.1) :=
  ⟨fun _ _ _ hab hbc => le_trans hbc hab⟩

/-- The strict descending-magnitude comparison is antisymmetric
(vacuously, by irreflexivity). -/
instance : IsAntisymm LangEntry (fun a b => b.2.1 < a.2.1) :=
  ⟨fun _ _ h1 h2 => absurd (lt_trans h1 h2) (lt_irrefl _)⟩

/-- One annulus-segment `Path` (lines 129-141), keeping both the swept
angles and the emitted arc endpoint coordinates.  `largeArc` is the
`slice_angle > PI` flag of line 139. -/
structure Slice where
  start : ℝ
  angle : ℝ
  x1 : ℝ
  y1 : ℝ
  x2 : ℝ
  y2 : ℝ
  x3 : ℝ
  y3 : ℝ
  x4 : ℝ
  y4 : ℝ
  largeArc : Prop
  fill : List Char

/-- One legend swatch-plus-label pair (lines 144-150). -/
structure LegendEntry where
  xOff : ℕ
  yOff : ℤ
  fill : List Char
  label : List Char

/-- The donut layer: the slice paths and the legend entries, each in
emission order. -/
structure Donut where
  slices : List Slice
  legend : List LegendEntry

/-- The `for (i, (name, (size, color)))` loop of `draw_donut_chart`
(lines 128-153), threading the running `current_angle` and the index
`i`. -/
noncomputable def donutEmit (total : ℤ) :
    List LangEntry → ℝ → ℕ → List Slice × List LegendEntry
  | [], _, _ => ([], [])
  | e :: rest, currentAngle, i =>
    let sliceAngle : ℝ := ((e.2.1 : ℝ) / (total : ℝ)) * (2 * Real.pi)
    let radius : ℝ := 90
    let innerRadius : ℝ := 60
    let slice : Slice :=
      { start := currentAngle
        angle := sliceAngle
        x1 := Real.cos currentAngle * radius
        y1 := Real.sin currentAngle * radius
        x2 := Real.cos (currentAngle + sliceAngle) * radius
        y2 := Real.sin (currentAngle + sliceAngle) * radius
        x3 := Real.cos (currentAngle + sliceAngle) * innerRadius
        y3 := Real.sin (currentAngle + sliceAngle) * innerRadius
        x4 := Real.cos currentAngle * innerRadius
        y4 := Real.sin currentAngle * innerRadius
        largeArc := Real.pi < sliceAngle
        fill := e.2.2 }
    let legendEntry : LegendEntry :=
      { xOff := 120 + (i / 8) * 140
        yOff := ((i % 8 : ℕ) : ℤ) * 22 - 80
        fill := e.2.2
        label := e.1 }
    let tail := donutEmit total rest (currentAngle + sliceAngle) (i + 1)
    (slice :: tail.1, legendEntry :: tail.2)

/-- `draw_donut_chart`: sort the iterated entries by descending size,
sum the sizes, then emit slices and legend entries (the division by
`total` is NOT guarded against `total == 0`; in Rust it silently
produces NaN coordinates, see the modelling note at the top). -/
noncomputable def draw_donut_chart (langStats : List LangEntry) : Donut :=
  let sortedLangs := sortLangs langStats
  let total : ℤ := (sortedLangs.map fun v => v.2.1).sum
  let out := donutEmit total sortedLangs 0 0
  { slices := out.1, legend := out.2 }

/-! ## Radar renderer: `draw_radar_chart` (src/main.rs lines 157-181) -/

/-- The fixed label array of line 160. -/
def radarLabels : List (List Char) :=
  ["Commit".toList, "Issue".toList, "PullReq".toList, "Review".toList, "Repo".toList]

/-- The spoke angle `(i as f64 * 72.0 - 90.0).to_radians()` of
lines 166 and 175. -/
noncomputable def radarAngle (i : ℕ) : ℝ :=
  ((i : ℝ) * 72 - 90) * (Real.pi / 180)

/-- The radar layer: the four concentric grid pentagons, the axis
labels, and the data polygon vertices, each in emission order. -/
structure Radar where
  grid : List (List (ℝ × ℝ))
  labels : List ((ℝ × ℝ) × List Char)
  dataPoints : List (ℝ × ℝ)

/-- `draw_radar_chart`: grid rings at fractions of `max_r = 110`, then
the enumerated data loop emitting one label and one data vertex per
metric with the log10 radial scaling of lines 174-176.  The source
indexes `labels[i]` with `i < 5` guaranteed by the `[i32; 5]` input
type; the embedding's `getD` default is unreachable for such inputs. -/
noncomputable def draw_radar_chart (stats : List ℤ) : Radar :=
  let maxR : ℝ := 110
  { grid := ([0.25, 0.5, 0.75, 1] : List ℝ).map fun r =>
      (List.range 5).map fun i =>
        (Real.cos (radarAngle i) * maxR * r, Real.sin (radarAngle i) * maxR * r)
    labels := stats.enum.map fun p =>
      ((Real.cos (radarAngle p.1) * 140 - 25, Real.sin (radarAngle p.1) * 140),
        radarLabels.getD p.1 [])
    dataPoints := stats.enum.map fun p =>
      let valScaled := Real.logb 10 ((p.2 : ℝ) + 1) / 4
      let r := min valScaled 1 * maxR
      (Real.cos (radarAngle p.1) * r, Real.sin (radarAngle p.1) * r) }

/-! ## Theorems -/

/-- Helper: each cell emits exactly three faces. -/
theorem cellFaces_length (x y : ℕ) (day : Day) : (cellFaces x y day).length = 3 := rfl

/-- Helper: the faces of one enumerated week, counted. -/
theorem enumFrom_days_faces_length (x : ℕ) (days : List Day) : ∀ n : ℕ,
    ((days.enumFrom n).flatMap fun q => cellFaces x q.1 q.2).length = 3 * days.length := by
  induction days with
  | nil => intro n; rfl
  | cons d rest ih =>
    intro n
    simp only [List.enumFrom, List.flatMap_cons, List.length_append, ih, cellFaces_length,
      List.length_cons]
    omega

/-- Helper: the same count for `enum` (which is `enumFrom 0`). -/
theorem enum_days_faces_length (x : ℕ) (days : List Day) :
    (days.enum.flatMap fun q => cellFaces x q.1 q.2).length = 3 * days.length :=
  enumFrom_days_faces_length x days 0

/-- C5: `project(x, y, z)` is exactly
`(400 + (x − y)·cos(30°)·20, 300 + (x + y)·sin(30°)·20 − z)` (30° is
`π/6` radians; centerX = 400, centerY = 300, scale = 20), and as a pure
function it returns identical output for identical input across
repeated calls. -/
theorem project_formula (x y z : ℝ) :
    project x y z
      = (400 + (x - y) * Real.cos (Real.pi / 6) * 20,
         300 + (x + y) * Real.sin (Real.pi / 6) * 20 - z)
    ∧ project x y z = project x y z := by
  refine ⟨?_, rfl⟩
  have h : (30 : ℝ) * (Real.pi / 180) = Real.pi / 6 := by ring
  simp only [project]
  rw [h]

/-- C4: the heatmap renderer iterates only over the actually-present
days of each week (weeks may have unequal day counts) and emits exactly
`3 × (number of present days)` polygon faces — no cell, zero-count or
otherwise, is skipped. -/
theorem heatmap_face_count (weeks : List Week) :
    (draw_3d_heatmap weeks).length
      = 3 * (weeks.map fun w => w.contribution_days.length).sum := by
  suffices h : ∀ n : ℕ,
      ((weeks.enumFrom n).flatMap fun p =>
        p.2.contribution_days.enum.flatMap fun q => cellFaces p.1 q.1 q.2).length
      = 3 * (weeks.map fun w => w.contribution_days.length).sum by
    simpa only [draw_3d_heatmap, List.enum] using h 0
  induction weeks with
  | nil => intro n; rfl
  | cons w rest ih =>
    intro n
    simp only [List.enumFrom, List.flatMap_cons, List.length_append, List.map_cons,
      List.sum_cons, ih, enum_days_faces_length]
    ring

/-- C1 [code_bug]: the donut renderer is NOT guarded against a zero
total magnitude.  An empty mapping does give a layer with no slice
paths, but the non-empty all-zero mapping {"Rust" ↦ (0, "#dea584")}
(total = 0) still emits one slice path per entry: the division by the
zero total is performed (yielding NaN coordinates in Rust, silently)
and the layer is not empty, contrary to the claim. -/
theorem donut_zero_total_emits_paths :
    (draw_donut_chart [("Rust".toList, 0, "#dea584".toList)]).slices.length = 1
    ∧ (draw_donut_chart []).slices.length = 0 :=
  ⟨rfl, rfl⟩

/-- C3 [code_bug]: `draw_radar_chart` performs no input validation.  On
the negative metric vector [-5, 0, 0, 0, 0] it does not fail fast or
reject the input: it renders a complete radar layer with five data
polygon vertices (the first computed from log10(-4), which is NaN at
runtime) and all four grid rings. -/
theorem radar_negative_rendered :
    (draw_radar_chart [-5, 0, 0, 0, 0]).dataPoints.length = 5
    ∧ (draw_radar_chart [-5, 0, 0, 0, 0]).grid.length = 4 :=
  ⟨rfl, rfl⟩

/-- The three faces of one cell exactly as the spec (section 4.3,
step 4) words them: a left face darkened by `leftShade = 0.8` tracing
top-left, top-front, bottom-front, bottom-left; a right face darkened
by `rightShade = 0.6` tracing top-right, top-front, bottom-front,
bottom-right; a top face in the undarkened base color tracing top-back,
top-left, top-front, top-right — to be compared with the `cellFaces`
translated from the source. -/
noncomputable def specCellFaces (x y : ℕ) (day : Day) : List Face :=
  let color := get_seasonal_color x day.contribution_count
  let topBack := project (x : ℝ) (y : ℝ) (barHeight day)
  let topLeft := project ((x : ℝ) + 1) (y : ℝ) (barHeight day)
  let topRight := project (x : ℝ) ((y : ℝ) + 1) (barHeight day)
  let topFront := project ((x : ℝ) + 1) ((y : ℝ) + 1) (barHeight day)
  let botLeft := project ((x : ℝ) + 1) (y : ℝ) 0
  let botRight := project (x : ℝ) ((y : ℝ) + 1) 0
  let botFront := project ((x : ℝ) + 1) ((y : ℝ) + 1) 0
  [ { fill := darken color (mkRat 4 5), points := [topLeft, topFront, botFront, botLeft] },
    { fill := darken color (mkRat 3 5), points := [topRight, topFront, botFront, botRight] },
    { fill := some color, points := [topBack, topLeft, topFront, topRight] } ]

/-- C6: for every heatmap cell, the three faces emitted into the layer
for that cell (contiguously, in draw order) are: first the left face
darkened by `leftShade = 0.8`, then the right face darkened by
`rightShade = 0.6 < leftShade`, then the top face in the undarkened
base color, each tracing its quadrilateral in the corner order the spec
states (see `specCellFaces`). -/
theorem heatmap_cell_face_order (weeks : List Week) (x y : ℕ) (week : Week) (day : Day)
    (hw : (x, week) ∈ weeks.enum) (hd : (y, day) ∈ week.contribution_days.enum) :
    (∃ pre suf, draw_3d_heatmap weeks = pre ++ (cellFaces x y day ++ suf))
    ∧ cellFaces x y day = specCellFaces x y day
    ∧ mkRat 3 5 < mkRat 4 5 := by
  refine ⟨?_, rfl, by decide⟩
  obtain ⟨s, t, hst⟩ := List.append_of_mem hw
  obtain ⟨u, v, huv⟩ := List.append_of_mem hd
  refine ⟨(s.flatMap fun p => p.2.contribution_days.enum.flatMap fun q => cellFaces p.1 q.1 q.2)
        ++ (u.flatMap fun q => cellFaces x q.1 q.2),
      (v.flatMap fun q => cellFaces x q.1 q.2)
        ++ (t.flatMap fun p => p.2.contribution_days.enum.flatMap fun q => cellFaces p.1 q.1 q.2),
      ?_⟩
  simp only [draw_3d_heatmap, hst, huv, List.flatMap_append, List.flatMap_cons,
    List.append_assoc]

/-- Concrete one-week, one-day calendar for the C6 witness. -/
def sampleDay : Day := ⟨5⟩

/-- Its enclosing week. -/
def sampleWeek : Week := ⟨[sampleDay]⟩

/-- Its enclosing grid. -/
def sampleWeeks : List Week := [sampleWeek]

/-- Witness for C6 at the concrete one-cell grid `sampleWeeks`. -/
theorem heatmap_cell_face_order_witness :
    ((0, sampleWeek) ∈ sampleWeeks.enum
        ∧ (0, sampleDay) ∈ sampleWeek.contribution_days.enum)
    ∧ ((∃ pre suf, draw_3d_heatmap sampleWeeks = pre ++ (cellFaces 0 0 sampleDay ++ suf))
        ∧ cellFaces 0 0 sampleDay = specCellFaces 0 0 sampleDay
        ∧ mkRat 3 5 < mkRat 4 5) :=
  ⟨⟨by decide, by decide⟩,
    heatmap_cell_face_order sampleWeeks 0 0 sampleWeek sampleDay (by decide) (by decide)⟩

/-- C2 counterexample: on the 2-character input "ab" (shorter than six
hex digits) `darken` does not return a fallback color and does not
survive: the Rust byte slice `&hex[2..4]` is out of range for a
2-character string and panics (modelled as `none`), so the claim fails
for strings shorter than 6 characters. -/
theorem darken_short_input_panics : darken ['a', 'b'] (mkRat 1 2) = none := rfl

/-- C2 (amended): for every input string whose form after stripping the
leading `#` characters has at least six characters, and every factor,
`darken` returns a color instead of failing, each unparsable channel
falling back to the value 200 before scaling; in particular
`darken("not-a-color", 0.5)` returns "#646464" and does not fail. -/
theorem darken_malformed_fallback (hex : List Char) (amount : ℚ)
    (h6 : 6 ≤ (hex.dropWhile fun c => c = '#').length) :
    (darken hex amount).isSome = true
    ∧ darken "not-a-color".toList (mkRat 1 2) = some "#646464".toList := by
  refine ⟨?_, by decide⟩
  have h0 : 0 + 2 ≤ (hex.dropWhile fun c => c = '#').length := by omega
  have h2 : 2 + 2 ≤ (hex.dropWhile fun c => c = '#').length := by omega
  have h4 : 4 + 2 ≤ (hex.dropWhile fun c => c = '#').length := by omega
  simp [darken, channelOf, h0, h2, h4]

/-- Witness for C2's amended theorem at the concrete malformed input
"not-a-color" with factor 1/2. -/
theorem darken_malformed_fallback_witness :
    6 ≤ ("not-a-color".toList.dropWhile fun c => c = '#').length
    ∧ ((darken "not-a-color".toList (mkRat 1 2)).isSome = true
        ∧ darken "not-a-color".toList (mkRat 1 2) = some "#646464".toList) :=
  ⟨by decide, darken_malformed_fallback "not-a-color".toList (mkRat 1 2) (by decide)⟩

/-- The channel value encoded by two hex digit characters. -/
def hexPair (a b : Char) : ℕ :=
  16 * (hexDigitVal a).getD 0 + (hexDigitVal b).getD 0

/-- Helper: a hex digit value is below 16. -/
theorem hexDigitVal_getD_lt {c : Char} (h : (hexDigitVal c).isSome = true) :
    (hexDigitVal c).getD 0 < 16 := by
  unfold hexDigitVal at *
  split_ifs at * <;> simp_all <;> omega

/-- Helper: hex digit characters are not sign or hash characters. -/
theorem hexDigitVal_ne_special {c : Char} (h : (hexDigitVal c).isSome = true) :
    c ≠ '+' ∧ c ≠ '-' ∧ c ≠ '#' := by
  refine ⟨?_, ?_, ?_⟩ <;> rintro rfl <;> exact absurd h (by decide)

/-- Helper: parsing a two-hex-digit slice round-trips to the channel
value. -/
theorem fromStrRadix16_pair {a b : Char} (ha : (hexDigitVal a).isSome = true)
    (hb : (hexDigitVal b).isSome = true) :
    fromStrRadix16 [a, b] = some (hexPair a b) := by
  obtain ⟨da, hda⟩ := Option.isSome_iff_exists.mp ha
  obtain ⟨db, hdb⟩ := Option.isSome_iff_exists.mp hb
  have la : da < 16 := by have := hexDigitVal_getD_lt ha; rwa [hda] at this
  have lb : db < 16 := by have := hexDigitVal_getD_lt hb; rwa [hdb] at this
  have hsa := hexDigitVal_ne_special ha
  rw [show fromStrRadix16 [a, b]
        = (if a = '+' then parseHexDigits [b]
          else if a = '-' then (parseHexDigits [b]).bind fun v => if v = 0 then some 0 else none
          else parseHexDigits [a, b]) from rfl]
  rw [if_neg hsa.1, if_neg hsa.2.1]
  unfold parseHexDigits
  simp only [List.foldlM, hda, hdb, Option.some_bind, Option.bind_eq_bind, Option.pure_def,
    Nat.zero_mul, Nat.zero_add]
  rw [if_pos (by omega : da ≤ 255)]
  simp only [Option.some_bind]
  rw [if_pos (by omega : da * 16 + db ≤ 255)]
  simp only [Option.some_bind]
  unfold hexPair
  rw [hda, hdb]
  simp only [Option.getD_some]
  congr 1
  omega

/-- Helper: the truncating scaled-channel computation equals the
floor of the exact product for a factor in (0, 1], and never exceeds
the input channel. -/
theorem scaleToU8_eq_floor (v : ℕ) (f : ℚ) (hv : v ≤ 255) (hf0 : 0 < f) (hf1 : f ≤ 1) :
    scaleToU8 v f = Int.toNat ⌊(v : ℚ) * f⌋ ∧ Int.toNat ⌊(v : ℚ) * f⌋ ≤ v := by
  have hnum : 0 < f.num := Rat.num_pos.mpr hf0
  have h1 : Int.tdiv ((v : ℤ) * f.num) ((f.den : ℕ) : ℤ) = ((v : ℤ) * f.num) / ((f.den : ℕ) : ℤ) :=
    Int.tdiv_eq_ediv (by positivity) (by positivity)
  have h2 : ((v : ℤ) * f.num) / ((f.den : ℕ) : ℤ) = ⌊((((v : ℤ) * f.num : ℤ) : ℚ) / ((f.den : ℕ) : ℚ))⌋ :=
    (Rat.floor_intCast_div_natCast _ _).symm
  have h3 : ((((v : ℤ) * f.num : ℤ) : ℚ) / ((f.den : ℕ) : ℚ)) = (v : ℚ) * f := by
    push_cast
    rw [mul_div_assoc, Rat.num_div_den]
  have hle : Int.toNat ⌊(v : ℚ) * f⌋ ≤ v := by
    have hvf : (v : ℚ) * f ≤ ((v : ℕ) : ℚ) := by
      calc (v : ℚ) * f ≤ (v : ℚ) * 1 := by
            exact mul_le_mul_of_nonneg_left hf1 (by positivity)
        _ = (v : ℚ) := mul_one _
    have hfl : ⌊(v : ℚ) * f⌋ ≤ ((v : ℕ) : ℤ) := by
      have := Int.floor_le_floor hvf
      rwa [Int.floor_natCast] at this
    omega
  refine ⟨?_, hle⟩
  unfold scaleToU8
  rw [h1, h2, h3]
  exact min_eq_left (le_trans hle hv)

/-- Helper: dropping leading `#` characters removes exactly the
replicated run. -/
theorem dropWhile_replicate_hash (k : ℕ) (l : List Char) :
    ((List.replicate k '#') ++ l).dropWhile (fun c => c = '#')
      = l.dropWhile (fun c => c = '#') := by
  induction k with
  | zero => rfl
  | succ n ih => simp [List.replicate_succ, List.dropWhile_cons, ih]

/-- Helper: a two-digit hex rendering of a byte value consists of hex
digit characters. -/
theorem toHex2_all_hex {n : ℕ} (h : n ≤ 255) :
    ∀ c ∈ toHex2 n, (hexDigitVal c).isSome = true := by
  have h1 : n / 16 < 16 := by omega
  have h2 : n % 16 < 16 := by omega
  have key : ∀ d : ℕ, d < 16 → (hexDigitVal (hexChar d)).isSome = true := by
    intro d hd
    interval_cases d <;> decide
  intro c hc
  simp only [toHex2, List.mem_cons, List.mem_singleton, List.not_mem_nil, or_false] at hc
  rcases hc with rfl | rfl
  · exact key _ h1
  · exact key _ h2

/-- C9: for every valid six-hex-digit color input, optionally preceded
by a run of `#` characters, and every factor f ∈ (0, 1]: `darken`
returns `#` followed by the three channels `⌊channel · f⌋` re-encoded
as two lower-case hex digits; every output channel is at most the
corresponding input channel; and the output is a well-formed
`#`-prefixed six-hex-digit string. -/
theorem darken_valid_input (k : ℕ) (c0 c1 c2 c3 c4 c5 : Char) (f : ℚ)
    (h0 : (hexDigitVal c0).isSome = true) (h1 : (hexDigitVal c1).isSome = true)
    (h2 : (hexDigitVal c2).isSome = true) (h3 : (hexDigitVal c3).isSome = true)
    (h4 : (hexDigitVal c4).isSome = true) (h5 : (hexDigitVal c5).isSome = true)
    (hf0 : 0 < f) (hf1 : f ≤ 1) :
    darken (List.replicate k '#' ++ [c0, c1, c2, c3, c4, c5]) f
      = some ('#' :: (toHex2 (Int.toNat ⌊(hexPair c0 c1 : ℚ) * f⌋)
          ++ toHex2 (Int.toNat ⌊(hexPair c2 c3 : ℚ) * f⌋)
          ++ toHex2 (Int.toNat ⌊(hexPair c4 c5 : ℚ) * f⌋)))
    ∧ Int.toNat ⌊(hexPair c0 c1 : ℚ) * f⌋ ≤ hexPair c0 c1
    ∧ Int.toNat ⌊(hexPair c2 c3 : ℚ) * f⌋ ≤ hexPair c2 c3
    ∧ Int.toNat ⌊(hexPair c4 c5 : ℚ) * f⌋ ≤ hexPair c4 c5
    ∧ isColorString ('#' :: (toHex2 (Int.toNat ⌊(hexPair c0 c1 : ℚ) * f⌋)
          ++ toHex2 (Int.toNat ⌊(hexPair c2 c3 : ℚ) * f⌋)
          ++ toHex2 (Int.toNat ⌊(hexPair c4 c5 : ℚ) * f⌋))) = true := by
  have b01 : hexPair c0 c1 ≤ 255 := by
    have := hexDigitVal_getD_lt h0; have := hexDigitVal_getD_lt h1
    unfold hexPair; omega
  have b23 : hexPair c2 c3 ≤ 255 := by
    have := hexDigitVal_getD_lt h2; have := hexDigitVal_getD_lt h3
    unfold hexPair; omega
  have b45 : hexPair c4 c5 ≤ 255 := by
    have := hexDigitVal_getD_lt h4; have := hexDigitVal_getD_lt h5
    unfold hexPair; omega
  obtain ⟨s01, le01⟩ := scaleToU8_eq_floor (hexPair c0 c1) f b01 hf0 hf1
  obtain ⟨s23, le23⟩ := scaleToU8_eq_floor (hexPair c2 c3) f b23 hf0 hf1
  obtain ⟨s45, le45⟩ := scaleToU8_eq_floor (hexPair c4 c5) f b45 hf0 hf1
  have hdw : (List.replicate k '#' ++ [c0, c1, c2, c3, c4, c5]).dropWhile (fun c => c = '#')
      = [c0, c1, c2, c3, c4, c5] := by
    rw [dropWhile_replicate_hash]
    simp [List.dropWhile_cons, (hexDigitVal_ne_special h0).2.2]
  have happ : darken (List.replicate k '#' ++ [c0, c1, c2, c3, c4, c5]) f
      = some ('#' :: (toHex2 (Int.toNat ⌊(hexPair c0 c1 : ℚ) * f⌋)
          ++ toHex2 (Int.toNat ⌊(hexPair c2 c3 : ℚ) * f⌋)
          ++ toHex2 (Int.toNat ⌊(hexPair c4 c5 : ℚ) * f⌋))) := by
    simp only [darken, hdw]
    have e0 : channelOf [c0, c1, c2, c3, c4, c5] 0 f = some (Int.toNat ⌊(hexPair c0 c1 : ℚ) * f⌋) := by
      rw [show channelOf [c0, c1, c2, c3, c4, c5] 0 f
            = some (scaleToU8 ((fromStrRadix16 [c0, c1]).getD 200) f) from rfl,
        fromStrRadix16_pair h0 h1, Option.getD_some, s01]
    have e2 : channelOf [c0, c1, c2, c3, c4, c5] 2 f = some (Int.toNat ⌊(hexPair c2 c3 : ℚ) * f⌋) := by
      rw [show channelOf [c0, c1, c2, c3, c4, c5] 2 f
            = some (scaleToU8 ((fromStrRadix16 [c2, c3]).getD 200) f) from rfl,
        fromStrRadix16_pair h2 h3, Option.getD_some, s23]
    have e4 : channelOf [c0, c1, c2, c3, c4, c5] 4 f = some (Int.toNat ⌊(hexPair c4 c5 : ℚ) * f⌋) := by
      rw [show channelOf [c0, c1, c2, c3, c4, c5] 4 f
            = some (scaleToU8 ((fromStrRadix16 [c4, c5]).getD 200) f) from rfl,
        fromStrRadix16_pair h4 h5, Option.getD_some, s45]
    rw [e0, e2, e4]
    rfl
  refine ⟨happ, le01, le23, le45, ?_⟩
  have a01 := toHex2_all_hex (le_trans le01 b01)
  have a23 := toHex2_all_hex (le_trans le23 b23)
  have a45 := toHex2_all_hex (le_trans le45 b45)
  simp only [isColorString, toHex2] at *
  simp_all

/-- Witness for C9 at the concrete input "#40c463" (so k = 1) with
factor 1/2. -/
theorem darken_valid_input_witness :
    ((hexDigitVal '4').isSome = true ∧ (hexDigitVal '0').isSome = true
      ∧ (hexDigitVal 'c').isSome = true ∧ (hexDigitVal '4').isSome = true
      ∧ (hexDigitVal '6').isSome = true ∧ (hexDigitVal '3').isSome = true
      ∧ 0 < mkRat 1 2 ∧ mkRat 1 2 ≤ 1)
    ∧ (darken (List.replicate 1 '#' ++ ['4', '0', 'c', '4', '6', '3']) (mkRat 1 2)
        = some ('#' :: (toHex2 (Int.toNat ⌊(hexPair '4' '0' : ℚ) * mkRat 1 2⌋)
            ++ toHex2 (Int.toNat ⌊(hexPair 'c' '4' : ℚ) * mkRat 1 2⌋)
            ++ toHex2 (Int.toNat ⌊(hexPair '6' '3' : ℚ) * mkRat 1 2⌋)))
      ∧ Int.toNat ⌊(hexPair '4' '0' : ℚ) * mkRat 1 2⌋ ≤ hexPair '4' '0'
      ∧ Int.toNat ⌊(hexPair 'c' '4' : ℚ) * mkRat 1 2⌋ ≤ hexPair 'c' '4'
      ∧ Int.toNat ⌊(hexPair '6' '3' : ℚ) * mkRat 1 2⌋ ≤ hexPair '6' '3'
      ∧ isColorString ('#' :: (toHex2 (Int.toNat ⌊(hexPair '4' '0' : ℚ) * mkRat 1 2⌋)
            ++ toHex2 (Int.toNat ⌊(hexPair 'c' '4' : ℚ) * mkRat 1 2⌋)
            ++ toHex2 (Int.toNat ⌊(hexPair '6' '3' : ℚ) * mkRat 1 2⌋))) = true) :=
  ⟨⟨by decide, by decide, by decide, by decide, by decide, by decide, by decide, by decide⟩,
    darken_valid_input 1 '4' '0' 'c' '4' '6' '3' (mkRat 1 2)
      (by decide) (by decide) (by decide) (by decide) (by decide) (by decide)
      (by decide) (by decide)⟩

/-- Helper: `getD` at an in-range index is `getElem`. -/
theorem getD_of_lt {α : Type} (l : List α) (n : ℕ) (a : α) (h : n < l.length) :
    l.getD n a = l[n] := by
  simp [List.getD_eq_getElem?_getD, List.getElem?_eq_getElem h]

/-- Helper: the radar radius saturates to the full 110 at value 9999
(log10(10000)/4 = 1, the clamp keeps it at 1). -/
theorem radar_radius_9999 :
    min (Real.logb 10 (((9999 : ℤ) : ℝ) + 1) / 4) 1 * 110 = (110 : ℝ) := by
  have h1 : (((9999 : ℤ) : ℝ) + 1) = (10 : ℝ) ^ (4 : ℕ) := by norm_num
  rw [h1, Real.logb_pow, Real.logb_self_eq_one (by norm_num)]
  norm_num

/-- Helper: the radar radius at value 0 is 0 (log10(1) = 0). -/
theorem radar_radius_zero :
    min (Real.logb 10 (((0 : ℤ) : ℝ) + 1) / 4) 1 * 110 = (0 : ℝ) := by
  norm_num [Real.logb_one]

/-- C8: for a 5-long vector of non-negative metric values, data vertex
`i` lies on its fixed spoke angle `radarAngle i` at radius
`min (log10 (v + 1) / 4) 1 · 110` from the center; the value 9999
saturates the scale and lands exactly on the full radius 110, and the
value 0 lands on radius 0 (the center). -/
theorem radar_data_vertex (stats : List ℤ) (hlen : stats.length = 5)
    (_hnn : ∀ v ∈ stats, 0 ≤ v) (i : ℕ) (hi : i < 5) :
    (draw_radar_chart stats).dataPoints.getD i (0, 0)
      = (Real.cos (radarAngle i) * (min (Real.logb 10 ((stats.getD i 0 : ℝ) + 1) / 4) 1 * 110),
         Real.sin (radarAngle i) * (min (Real.logb 10 ((stats.getD i 0 : ℝ) + 1) / 4) 1 * 110))
    ∧ (draw_radar_chart [9999, 0, 0, 0, 0]).dataPoints.getD 0 (0, 0)
      = (Real.cos (radarAngle 0) * 110, Real.sin (radarAngle 0) * 110)
    ∧ (draw_radar_chart [0, 0, 0, 0, 0]).dataPoints.getD 0 (0, 0) = (0, 0) := by
  refine ⟨?_, ?_, ?_⟩
  · have hi' : i < stats.length := by omega
    rw [show (draw_radar_chart stats).dataPoints
          = stats.enum.map (fun p =>
              (Real.cos (radarAngle p.1) * (min (Real.logb 10 ((p.2 : ℝ) + 1) / 4) 1 * 110),
               Real.sin (radarAngle p.1) * (min (Real.logb 10 ((p.2 : ℝ) + 1) / 4) 1 * 110)))
        from rfl]
    rw [getD_of_lt _ _ _ (by simpa [List.enum, List.enumFrom_length] using hi'),
      getD_of_lt _ _ _ hi']
    simp only [List.getElem_map, List.enum, List.getElem_enumFrom, Nat.zero_add]
  · rw [show (draw_radar_chart [9999, 0, 0, 0, 0]).dataPoints.getD 0 (0, 0)
          = (Real.cos (radarAngle 0) * (min (Real.logb 10 (((9999 : ℤ) : ℝ) + 1) / 4) 1 * 110),
             Real.sin (radarAngle 0) * (min (Real.logb 10 (((9999 : ℤ) : ℝ) + 1) / 4) 1 * 110))
        from rfl, radar_radius_9999]
  · rw [show (draw_radar_chart [0, 0, 0, 0, 0]).dataPoints.getD 0 (0, 0)
          = (Real.cos (radarAngle 0) * (min (Real.logb 10 (((0 : ℤ) : ℝ) + 1) / 4) 1 * 110),
             Real.sin (radarAngle 0) * (min (Real.logb 10 (((0 : ℤ) : ℝ) + 1) / 4) 1 * 110))
        from rfl, radar_radius_zero]
    simp

/-- Witness for C8 at the concrete metric vector [9999, 0, 2, 1, 0]
and vertex index 0. -/
theorem radar_data_vertex_witness :
    (([9999, 0, 2, 1, 0] : List ℤ).length = 5
        ∧ (∀ v ∈ ([9999, 0, 2, 1, 0] : List ℤ), 0 ≤ v) ∧ 0 < 5)
    ∧ ((draw_radar_chart [9999, 0, 2, 1, 0]).dataPoints.getD 0 (0, 0)
        = (Real.cos (radarAngle 0)
              * (min (Real.logb 10 ((([9999, 0, 2, 1, 0] : List ℤ).getD 0 0 : ℝ) + 1) / 4) 1 * 110),
           Real.sin (radarAngle 0)
              * (min (Real.logb 10 ((([9999, 0, 2, 1, 0] : List ℤ).getD 0 0 : ℝ) + 1) / 4) 1 * 110))
      ∧ (draw_radar_chart [9999, 0, 0, 0, 0]).dataPoints.getD 0 (0, 0)
        = (Real.cos (radarAngle 0) * 110, Real.sin (radarAngle 0) * 110)
      ∧ (draw_radar_chart [0, 0, 0, 0, 0]).dataPoints.getD 0 (0, 0) = (0, 0)) :=
  ⟨⟨by decide, by decide, by decide⟩,
    radar_data_vertex [9999, 0, 2, 1, 0] (by decide) (by decide) 0 (by decide)⟩

/-- Helper: the slice angles emitted by the donut loop are exactly
`(size / total) · 2π`, entry by entry. -/
theorem donutEmit_angles (T : ℤ) (entries : List LangEntry) : ∀ (ca : ℝ) (i : ℕ),
    (donutEmit T entries ca i).1.map Slice.angle
      = entries.map (fun e => ((e.2.1 : ℝ) / (T : ℝ)) * (2 * Real.pi)) := by
  induction entries with
  | nil => intro ca i; rfl
  | cons e rest ih =>
    intro ca i
    simp only [donutEmit, List.map_cons, ih]

/-- Helper: each slice starts at the initial angle plus the sum of the
angles of the slices before it. -/
theorem donutEmit_starts (T : ℤ) (entries : List LangEntry) : ∀ (ca : ℝ) (i j : ℕ)
    (hj : j < (donutEmit T entries ca i).1.length),
    ((donutEmit T entries ca i).1.get ⟨j, hj⟩).start
      = ca + (((donutEmit T entries ca i).1.take j).map Slice.angle).sum := by
  induction entries with
  | nil => intro ca i j hj; exact absurd hj (by simp [donutEmit])
  | cons e rest ih =>
    intro ca i j hj
    match j with
    | 0 => simp [donutEmit]
    | j' + 1 =>
      have hj' : j' < (donutEmit T rest (ca + ((e.2.1 : ℝ) / (T : ℝ)) * (2 * Real.pi)) (i + 1)).1.length := by
        have := hj
        simp only [donutEmit, List.length_cons] at this
        omega
      have step := ih (ca + ((e.2.1 : ℝ) / (T : ℝ)) * (2 * Real.pi)) (i + 1) j' hj'
      simp only [donutEmit, List.get_cons_succ, List.take, List.map_cons, List.sum_cons, step]
      ring

/-- Helper: summing the proportional angles gives `(Σ sizes / T) · 2π`. -/
theorem sum_proportional_angles (T : ℤ) (entries : List LangEntry) :
    (entries.map (fun e => ((e.2.1 : ℝ) / (T : ℝ)) * (2 * Real.pi))).sum
      = (((entries.map fun e => e.2.1).sum : ℤ) : ℝ) / (T : ℝ) * (2 * Real.pi) := by
  induction entries with
  | nil => simp
  | cons e rest ih =>
    simp only [List.map_cons, List.sum_cons, ih]
    push_cast
    ring

/-- Helper: sorting does not change the total magnitude. -/
theorem sortLangs_sum (l : List LangEntry) :
    ((sortLangs l).map fun e => e.2.1).sum = (l.map fun e => e.2.1).sum :=
  List.Perm.sum_eq (List.Perm.map _ (List.perm_insertionSort _ l))

/-- C7: for a non-empty category mapping with positive total magnitude
T, the emitted slice angles are exactly `(magnitude / T) · 2π` in the
(descending-magnitude) emission order, every slice starts at the sum of
the angles of the slices before it (the running `current_angle`), and
the angles sum to exactly 2π. -/
theorem donut_slice_angles (l : List LangEntry) (_hne : l ≠ [])
    (hpos : 0 < (l.map fun e => e.2.1).sum) :
    ((draw_donut_chart l).slices.map Slice.angle
        = (sortLangs l).map
            (fun e => ((e.2.1 : ℝ) / (((l.map fun e => e.2.1).sum : ℤ) : ℝ)) * (2 * Real.pi)))
    ∧ (∀ (j : ℕ) (hj : j < (draw_donut_chart l).slices.length),
        ((draw_donut_chart l).slices.get ⟨j, hj⟩).start
          = (((draw_donut_chart l).slices.take j).map Slice.angle).sum)
    ∧ ((draw_donut_chart l).slices.map Slice.angle).sum = 2 * Real.pi := by
  have hs : (draw_donut_chart l).slices
      = (donutEmit ((sortLangs l).map fun v => v.2.1).sum (sortLangs l) 0 0).1 := rfl
  have hT : ((sortLangs l).map fun v => v.2.1).sum = (l.map fun e => e.2.1).sum :=
    sortLangs_sum l
  refine ⟨?_, ?_, ?_⟩
  · rw [hs, donutEmit_angles, hT]
  · intro j hj
    have hj' : j < (donutEmit ((sortLangs l).map fun v => v.2.1).sum (sortLangs l) 0 0).1.length := hj
    have step := donutEmit_starts ((sortLangs l).map fun v => v.2.1).sum (sortLangs l) 0 0 j hj'
    simpa using step
  · rw [hs, donutEmit_angles, sum_proportional_angles, hT]
    have hT0 : ((((l.map fun e => e.2.1).sum : ℤ)) : ℝ) ≠ 0 :=
      Int.cast_ne_zero.mpr (ne_of_gt hpos)
    rw [div_self hT0, one_mul]

/-- The concrete mapping {"Go" ↦ (80, "#00add8"), "Rust" ↦ (20,
"#dea584")} (total 100), used by the C7 witness. -/
def sampleLangs : List LangEntry :=
  [("Go".toList, 80, "#00add8".toList), ("Rust".toList, 20, "#dea584".toList)]

/-- Witness for C7 at the mapping `sampleLangs`. -/
theorem donut_slice_angles_witness :
    (sampleLangs ≠ [] ∧ 0 < (sampleLangs.map fun e => e.2.1).sum)
    ∧ (((draw_donut_chart sampleLangs).slices.map Slice.angle
        = (sortLangs sampleLangs).map
            (fun e => ((e.2.1 : ℝ) / (((sampleLangs.map fun e => e.2.1).sum : ℤ) : ℝ))
              * (2 * Real.pi)))
      ∧ (∀ (j : ℕ) (hj : j < (draw_donut_chart sampleLangs).slices.length),
          ((draw_donut_chart sampleLangs).slices.get ⟨j, hj⟩).start
            = (((draw_donut_chart sampleLangs).slices.take j).map Slice.angle).sum)
      ∧ ((draw_donut_chart sampleLangs).slices.map Slice.angle).sum = 2 * Real.pi) :=
  ⟨⟨by decide, by decide⟩, donut_slice_angles sampleLangs (by decide) (by decide)⟩

/-- First iteration order of the tied mapping {"aa" ↦ (1, "#111111"),
"bb" ↦ (1, "#222222")}. -/
def tieA : List LangEntry :=
  [("aa".toList, 1, "#111111".toList), ("bb".toList, 1, "#222222".toList)]

/-- The other iteration order of the same mapping. -/
def tieB : List LangEntry :=
  [("bb".toList, 1, "#222222".toList), ("aa".toList, 1, "#111111".toList)]

/-- C10 counterexample: the donut output is NOT independent of the hash
map's iteration order when two categories have equal magnitude.  `tieA`
and `tieB` are the two iteration orders of the same two-entry mapping
(both magnitudes 1); the stable sort keeps ties in iteration order, so
the two runs emit their slices and legend entries in different orders
and the outputs differ. -/
theorem donut_order_counterexample :
    tieA.Perm tieB ∧ draw_donut_chart tieA ≠ draw_donut_chart tieB := by
  constructor
  · exact List.Perm.swap _ _ _
  · intro h
    have hnames := congrArg (fun d => d.legend.map LegendEntry.label) h
    have ha : (draw_donut_chart tieA).legend.map LegendEntry.label
        = ["aa".toList, "bb".toList] := by decide
    have hb : (draw_donut_chart tieB).legend.map LegendEntry.label
        = ["bb".toList, "aa".toList] := by decide
    simp only [ha, hb] at hnames
    exact absurd hnames (by decide)

/-- C10 (amended): the donut renderer emits slices and legend entries
in non-increasing magnitude order, and that order is independent of the
mapping's iteration order whenever all magnitudes are pairwise
distinct; when two categories have equal magnitude, the stable sort
preserves the hash map's unspecified iteration order, so tied entries
are NOT reproducibly ordered (see the counterexample). -/
theorem donut_order_amended (l₁ l₂ : List LangEntry) (hperm : l₁.Perm l₂)
    (hdist : (l₁.map fun e => e.2.1).Pairwise (fun a b => a ≠ b)) :
    (sortLangs l₁).Sorted (fun a b => b.2.1 ≤ a.2.1)
    ∧ draw_donut_chart l₁ = draw_donut_chart l₂ := by
  have sorted₁ : (sortLangs l₁).Sorted (fun a b => b.2.1 ≤ a.2.1) :=
    List.sorted_insertionSort _ l₁
  have sorted₂ : (sortLangs l₂).Sorted (fun a b => b.2.1 ≤ a.2.1) :=
    List.sorted_insertionSort _ l₂
  refine ⟨sorted₁, ?_⟩
  have hp : (sortLangs l₁).Perm (sortLangs l₂) :=
    (List.perm_insertionSort _ l₁).trans (hperm.trans (List.perm_insertionSort _ l₂).symm)
  have hd₁ : (sortLangs l₁).Pairwise (fun a b => a.2.1 ≠ b.2.1) := by
    have hmp : ((sortLangs l₁).map fun e => e.2.1).Perm (l₁.map fun e => e.2.1) :=
      (List.perm_insertionSort _ l₁).map _
    exact (List.pairwise_map).mp ((hmp.pairwise_iff (@Ne.symm ℤ)).mpr hdist)
  have hd₂ : (sortLangs l₂).Pairwise (fun a b => a.2.1 ≠ b.2.1) := by
    have hmp : ((sortLangs l₂).map fun e => e.2.1).Perm (l₁.map fun e => e.2.1) :=
      ((List.perm_insertionSort _ l₂).map _).trans ((hperm.map _).symm)
    exact (List.pairwise_map).mp ((hmp.pairwise_iff (@Ne.symm ℤ)).mpr hdist)
  have strict₁ : (sortLangs l₁).Sorted (fun a b => b.2.1 < a.2.1) :=
    (sorted₁.and hd₁).imp fun h => lt_of_le_of_ne h.1 h.2.symm
  have strict₂ : (sortLangs l₂).Sorted (fun a b => b.2.1 < a.2.1) :=
    (sorted₂.and hd₂).imp fun h => lt_of_le_of_ne h.1 h.2.symm
  have hsort : sortLangs l₁ = sortLangs l₂ :=
    List.eq_of_perm_of_sorted hp strict₁ strict₂
  unfold draw_donut_chart
  rw [hsort]

/-- First iteration order of the distinct-magnitude mapping
{"aa" ↦ (2, "#111111"), "bb" ↦ (1, "#222222")}. -/
def permA : List LangEntry :=
  [("aa".toList, 2, "#111111".toList), ("bb".toList, 1, "#222222".toList)]

/-- The other iteration order of that mapping. -/
def permB : List LangEntry :=
  [("bb".toList, 1, "#222222".toList), ("aa".toList, 2, "#111111".toList)]

/-- Witness for C10's amended theorem at the distinct-magnitude
mapping `permA` / `permB`. -/
theorem donut_order_amended_witness :
    (permA.Perm permB ∧ (permA.map fun e => e.2.1).Pairwise (fun a b => a ≠ b))
    ∧ ((sortLangs permA).Sorted (fun a b => b.2.1 ≤ a.2.1)
        ∧ draw_donut_chart permA = draw_donut_chart permB) :=
  ⟨⟨List.Perm.swap _ _ _, by decide⟩,
    donut_order_amended permA permB (List.Perm.swap _ _ _) (by decide)⟩

